import Mathlib

/-!
# Verification of the google-calendar-analyzer report engine

Shallow embedding of `google_calendar/api.py` (class `ReportCalculator`) and
`google_calendar/scraper.py` (`create_attendees`), together with proofs of the
specification claims about them.

Conventions of the embedding:
* timezone-aware instants are modelled as civil UTC date-times (year, month,
  day, hour, minute); a user timezone is a fixed offset in minutes, and
  localization adds the offset with calendar carry (real IANA offsets lie in
  [-720, 840] minutes);
* durations are integer seconds (`end - start`), pandas `Timedelta` values are
  whole seconds throughout the pipeline;
* `datetime.today()` / `datetime.now()` calls are reads from an ambient clock
  stream, one stream position per call;
* pandas data frames are lists of rows, `sort_values` is the stable
  `List.insertionSort`, boolean masks are `List.filter`, SQL `GROUP BY` is
  "one row per distinct key, aggregated over the matching rows";
* Python `round` / `np.round` (round half to even) is `halfEvenDiv` on exact
  integers / rationals, never floating point.
-/

namespace GCal

/-- Gregorian leap-year test. -/
def isLeap (y : Int) : Bool := y % 4 == 0 && (y % 100 != 0 || y % 400 == 0)

/-- Number of days in month `m` (1..12) of year `y`. -/
def daysInMonth (y : Int) (m : Nat) : Nat :=
  if m = 2 then (if isLeap y then 29 else 28)
  else if m = 4 ∨ m = 6 ∨ m = 9 ∨ m = 11 then 30 else 31

/-- A timezone-aware instant, written out as its civil date-time in UTC
(minute resolution, which is all the claims need). -/
structure Instant where
  year : Int
  month : Nat
  day : Nat
  hour : Nat
  minute : Nat
deriving DecidableEq, Repr

/-- Calendar successor of a (year, month, day) triple. -/
def nextDay : Int × Nat × Nat → Int × Nat × Nat
  | (y, m, d) =>
    if d < daysInMonth y m then (y, m, d + 1)
    else if m < 12 then (y, m + 1, 1)
    else (y + 1, 1, 1)

/-- Calendar predecessor of a (year, month, day) triple. -/
def prevDay : Int × Nat × Nat → Int × Nat × Nat
  | (y, m, d) =>
    if 1 < d then (y, m, d - 1)
    else if 1 < m then (y, m - 1, daysInMonth y (m - 1))
    else (y - 1, 12, 31)

/-- Move a civil date by a (possibly negative) number of days. -/
def shiftDays : Int → Int × Nat × Nat → Int × Nat × Nat
  | .ofNat n, p => nextDay^[n] p
  | .negSucc n, p => prevDay^[n + 1] p

/-- The (year, month) of an instant seen in a fixed-offset timezone of `off`
minutes: embeds `Extract('start_datetime', 'year'/'month', tzinfo=tz)` from
`ReportCalculator._monthly_events_df` for a fixed-offset zone. -/
def localYM (off : Int) (t : Instant) : Int × Nat :=
  let total : Int := (t.hour : Int) * 60 + (t.minute : Int) + off
  let p := shiftDays (total.fdiv 1440) (t.year, t.month, t.day)
  (p.1, p.2.1)

/-- Days since 1970-01-01 of a civil date (standard civil-from-days inverse);
used only as a monotone linearization of instants for differences and
comparisons. -/
def daysFromCivil (y : Int) (m : Nat) (d : Nat) : Int :=
  let y' : Int := if m ≤ 2 then y - 1 else y
  let era : Int := (if 0 ≤ y' then y' else y' - 399) / 400
  let yoe : Int := y' - era * 400
  let mp : Int := ((m + 9) % 12 : Nat)
  let doy : Int := (153 * mp + 2) / 5 + (d : Int) - 1
  let doe : Int := yoe * 365 + yoe / 4 - yoe / 100 + doy
  era * 146097 + doe - 719468

/-- Minutes since epoch of an instant (linearization used for `≤ now` filters,
`Min('start_datetime')` and date differences). -/
def toMin (t : Instant) : Int :=
  daysFromCivil t.year t.month t.day * 1440 + (t.hour : Int) * 60 + (t.minute : Int)

/-- Zero-padding to two digits: Python's `f"{n:02}"`. -/
def pad2 (n : Nat) : String := if n < 10 then "0" ++ toString n else toString n

/-- The month label `f"{year}-{month:02}"` built by both report methods. -/
def monthLabel (y : Int) (m : Nat) : String := toString y ++ "-" ++ pad2 m

/-- `str(pandas.Timedelta(seconds=s))` for whole-second values:
"D days HH:MM:SS", with "+" before the clock part when negative. -/
def pdTimedeltaStr (secs : Int) : String :=
  let d := secs.fdiv 86400
  let r := (secs.fmod 86400).toNat
  let hms := pad2 (r / 3600) ++ ":" ++ pad2 (r % 3600 / 60) ++ ":" ++ pad2 (r % 60)
  if secs < 0 then toString d ++ " days +" ++ hms else toString d ++ " days " ++ hms

/-- Round-half-even of the rational `a / b` (`b ≠ 0`): the exact-arithmetic
semantics of Python's `round` and NumPy's `np.round` on this quotient. -/
def halfEvenDiv (a b : Int) : Int :=
  let q := a.fdiv b
  let t := 2 * (a.fmod b)
  if b = 0 then 0
  else if (0 < b ∧ t < b) ∨ (b < 0 ∧ b < t) then q
  else if (0 < b ∧ b < t) ∨ (b < 0 ∧ t < b) then q + 1
  else if q % 2 = 0 then q else q + 1

/-- One row of the cached monthly data frame `_monthly_events_df`:
duration is the bucket's total duration in seconds. -/
structure MRow where
  year : Int
  month : Nat
  duration : Int
  count : Nat
deriving DecidableEq, Repr

/-- A (year, month, value) row of the per-metric working frames. -/
structure Row (α : Type) where
  year : Int
  month : Nat
  value : α
deriving DecidableEq, Repr

/-- A rendered report entry `{'month': label, 'value': v}`. -/
structure Entry (α : Type) where
  month : String
  value : α
deriving DecidableEq, Repr

/-- Row order of `sort_values('value')`. -/
def byVal {α : Type} [LinearOrder α] (a b : Row α) : Prop := a.value ≤ b.value

instance {α : Type} [LinearOrder α] : DecidableRel (@byVal α _) :=
  fun a b => inferInstanceAs (Decidable (a.value ≤ b.value))

instance {α : Type} [LinearOrder α] : IsTotal (Row α) byVal :=
  ⟨fun a b => le_total a.value b.value⟩

instance {α : Type} [LinearOrder α] : IsTrans (Row α) byVal :=
  ⟨fun _ _ _ h h' => le_trans h h'⟩

/-- Row order of `sort_values(['year', 'month'])`. -/
def byYM {α : Type} (a b : Row α) : Prop :=
  a.year < b.year ∨ (a.year = b.year ∧ a.month ≤ b.month)

instance {α : Type} : DecidableRel (@byYM α) :=
  fun a b =>
    inferInstanceAs (Decidable (a.year < b.year ∨ (a.year = b.year ∧ a.month ≤ b.month)))

instance {α : Type} : IsTotal (Row α) byYM := ⟨by intro a b; unfold byYM; omega⟩

instance {α : Type} : IsTrans (Row α) byYM := ⟨by intro a b c; unfold byYM; omega⟩

/-- Maximum of a list (some-valued iff nonempty). -/
def listMax {α : Type} [LinearOrder α] : List α → Option α
  | [] => none
  | a :: as =>
    match listMax as with
    | none => some a
    | some b => some (max a b)

/-- Minimum of a list (some-valued iff nonempty). -/
def listMin {α : Type} [LinearOrder α] : List α → Option α
  | [] => none
  | a :: as =>
    match listMin as with
    | none => some a
    | some b => some (min a b)

/-- `DataFrame.nlargest(1, 'value', keep='all')`: all rows whose value equals
the global maximum; empty frame gives an empty frame. -/
def nlargest1All {α : Type} [LinearOrder α] (l : List (Entry α)) : List (Entry α) :=
  match listMax (l.map Entry.value) with
  | none => []
  | some m => l.filter (fun e => e.value = m)

/-- `DataFrame.nsmallest(1, 'value', keep='all')`. -/
def nsmallest1All {α : Type} [LinearOrder α] (l : List (Entry α)) : List (Entry α) :=
  match listMin (l.map Entry.value) with
  | none => []
  | some m => l.filter (fun e => e.value = m)

/-- Rendering one row: the label `apply` plus `del df['year']`. -/
def renderRow {α : Type} (r : Row α) : Entry α := ⟨monthLabel r.year r.month, r.value⟩

/-- The boolean mask `(df['year'] >= ref.year) & (df['month'] >= ref.month)`. -/
def windowMask {α : Type} (ref : Int × Nat) (r : Row α) : Bool :=
  decide (ref.1 ≤ r.year) && decide (ref.2 ≤ r.month)

/-- The `last_3_months` pipeline: pointwise mask, `sort_values(['year','month'])`,
label rendering. -/
def windowEntries {α : Type} (ref : Int × Nat) (rows : List (Row α)) : List (Entry α) :=
  (List.insertionSort byYM (rows.filter (windowMask ref))).map renderRow

/-- Column selection `[['year', 'month', 'count']]` with `count` renamed to
`value`. -/
def toRowC (r : MRow) : Row Nat := ⟨r.year, r.month, r.count⟩

/-- Column selection `[['year', 'month', 'duration']]` with `duration` renamed
to `value`. -/
def toRowD (r : MRow) : Row Int := ⟨r.year, r.month, r.duration⟩

/-- The `sort_values(['year', 'month'])` order on monthly-frame rows. -/
def mrowYM (a b : MRow) : Prop :=
  a.year < b.year ∨ (a.year = b.year ∧ a.month ≤ b.month)

instance : DecidableRel mrowYM :=
  fun a b =>
    inferInstanceAs (Decidable (a.year < b.year ∨ (a.year = b.year ∧ a.month ≤ b.month)))

instance : IsTotal MRow mrowYM := ⟨by intro a b; unfold mrowYM; omega⟩

instance : IsTrans MRow mrowYM := ⟨by intro a b c; unfold mrowYM; omega⟩

/-- Result shape of `ReportCalculator.number_of_events`. -/
structure CountReport where
  total : Nat
  last_3_months : List (Entry Nat)
  most : List (Entry Nat)
  least : List (Entry Nat)
  weekly_average : ℚ
deriving DecidableEq, Repr

/-- `ReportCalculator.number_of_events`, as a function of the (cached) monthly
frame, the reference window start `self.last_3_month_date` and the (cached)
week count. -/
def numberOfEvents (rows : List MRow) (ref : Int × Nat) (weeks : Int) : CountReport :=
  let vrows : List (Row Nat) := rows.map toRowC
  let rendered := (List.insertionSort byVal vrows).map renderRow
  let total : Nat := (vrows.map Row.value).sum
  { total := total
    last_3_months := windowEntries ref vrows
    most := nlargest1All rendered
    least := nsmallest1All rendered
    weekly_average :=
      if weeks = 0 then 0 else (halfEvenDiv (100 * (total : Int)) weeks : ℚ) / 100 }

/-- A JSON scalar that is either a number or a string (the dynamic type of the
`weekly_average` field of `time_spent`). -/
inductive PyVal where
  | int (n : Int)
  | str (s : String)
deriving DecidableEq, Repr

/-- Result shape of `ReportCalculator.time_spent`. -/
structure TimeReport where
  total : String
  last_3_months : List (Entry String)
  most : List (Entry String)
  least : List (Entry String)
  weekly_average : PyVal
deriving DecidableEq, Repr

/-- `map(str)` over the value column of a rendered frame. -/
def strEntry (e : Entry Int) : Entry String := ⟨e.month, pdTimedeltaStr e.value⟩

/-- `ReportCalculator.time_spent`, as a function of the monthly frame, the
reference window start and the week count. -/
def timeSpent (rows : List MRow) (ref : Int × Nat) (weeks : Int) : TimeReport :=
  let vrows : List (Row Int) := rows.map toRowD
  let rendered := (List.insertionSort byVal vrows).map renderRow
  let totalSec : Int := (vrows.map Row.value).sum
  { total := pdTimedeltaStr totalSec
    last_3_months := (windowEntries ref vrows).map strEntry
    most := (nlargest1All rendered).map strEntry
    least := (nsmallest1All rendered).map strEntry
    weekly_average :=
      if weeks = 0 then .int 0
      else .str (pdTimedeltaStr (halfEvenDiv totalSec weeks)) }

/-- One element of the `top_attendees` list. -/
structure AttEntry where
  name : String
  number_of_events : Nat
deriving DecidableEq, Repr

/-- Descending-count order used by `order_by('-count')` / `Series.nlargest`. -/
def attGe (a b : String × Nat) : Prop := b.2 ≤ a.2

instance : DecidableRel attGe := fun a b => inferInstanceAs (Decidable (b.2 ≤ a.2))

instance : IsTotal (String × Nat) attGe := ⟨fun a b => le_total b.2 a.2⟩

instance : IsTrans (String × Nat) attGe := ⟨fun _ _ _ h h' => le_trans h' h⟩

/-- `Series.nlargest(n, keep='all')`: sort descending by count; if at least
`n` entries exist, keep every entry whose count reaches the `n`-th one. -/
def nlargestSeries (n : Nat) (s : List (String × Nat)) : List (String × Nat) :=
  match ((List.insertionSort attGe s).drop (n - 1)).head? with
  | none => List.insertionSort attGe s
  | some t => (List.insertionSort attGe s).filter (fun p => t.2 ≤ p.2)

/-- `ReportCalculator.attendee`'s `top_attendees` list, as a function of the
(cached) per-email count series. -/
def attendeeReport (s : List (String × Nat)) : List AttEntry :=
  (nlargestSeries 3 s).map (fun p => ⟨p.1, p.2⟩)

/-- `round(total_days / 7)` for `total_days` the day difference between two
instants (in minutes since epoch): the body of `_number_of_weeks`. -/
def weeksFrom (startMin nowMin : Int) : Int :=
  halfEvenDiv ((nowMin - startMin).fdiv 1440) 7

/-- `ReportCalculator._number_of_weeks`: 0 when there is no eligible event,
otherwise `round(daysBetween(earliest, now) / 7)`. -/
def numberOfWeeks (earliest : Option Int) (nowMin : Int) : Int :=
  match earliest with
  | none => 0
  | some s => weeksFrom s nowMin

/-- An eligible calendar event row (plus its `is_attendee` flag as stored). -/
structure Ev where
  start_datetime : Instant
  end_datetime : Instant
  is_attendee : Bool
deriving DecidableEq, Repr

/-- The annotated `duration=F('end_datetime') - F('start_datetime')`, in
seconds. -/
def durationSec (e : Ev) : Int := (toMin e.end_datetime - toMin e.start_datetime) * 60

/-- The grouping key of `_monthly_events_df`: localized (year, month) of the
event's start instant. -/
def evKey (off : Int) (e : Ev) : Int × Nat := localYM off e.start_datetime

/-- `_monthly_events_df`: one row per distinct localized (year, month) among
the eligible events, `duration=Sum('duration')`, `count=Count('*')`. -/
def monthlyRollup (off : Int) (evs : List Ev) : List MRow :=
  ((evs.map (evKey off)).dedup).map (fun k =>
    let grp := evs.filter (fun e => evKey off e = k)
    ⟨k.1, k.2, (grp.map durationSec).sum, grp.length⟩)

/-! ## The scraper side (`create_attendees`) and the collaborator counts -/

/-- One attendee dict of the provider API response, as read by
`create_attendees`. -/
structure ARecord where
  email : String
  responseStatus : String
  self : Bool
deriving DecidableEq, Repr

/-- A stored `Attendee` model row. -/
structure StoredAttendee where
  email : String
  response : String
deriving DecidableEq, Repr

/-- The camelCase-to-snake_case conversion of `create_attendees`, on
character lists: a non-lowercase character becomes an underscore followed by
its lowercase form. -/
def camelToSnakeL : List Char → List Char
  | [] => []
  | c :: cs => if c.isLower then c :: camelToSnakeL cs else '_' :: c.toLower :: camelToSnakeL cs

/-- The camelCase-to-snake_case conversion on strings. -/
def camelToSnake (s : String) : String := String.mk (camelToSnakeL s.data)

/-- `create_attendees`: every record is stored with its converted response,
except the user's own record (`self`) when its raw status is `accepted`. -/
def create_attendees (records : List ARecord) : List StoredAttendee :=
  (records.filter (fun r => !(r.self && r.responseStatus == "accepted"))).map
    (fun r => ⟨r.email, camelToSnake r.responseStatus⟩)

/-- `values('email').annotate(count=Count('*'))`: one pair per distinct email
with its number of rows. -/
def seriesCounts (emails : List String) : List (String × Nat) :=
  emails.dedup.map (fun e => (e, emails.count e))

/-- `ReportCalculator._attendees_counts` on a stored attendee table: keep rows
passing the event-eligibility filter `elig` and `response=ACCEPTED`, count per
email, order descending by count. -/
def attendeesCounts (elig : StoredAttendee → Bool) (stored : List StoredAttendee) :
    List (String × Nat) :=
  List.insertionSort attGe
    (seriesCounts ((stored.filter (fun a => elig a && a.response == "accepted")).map
      StoredAttendee.email))

/-! ## The calculator as a state machine (construction, lazy caches, clock) -/

/-- One stored `Attendee` row joined to its event's fields, as the attendee
queryset of `ReportCalculator.__init__` sees it. -/
structure RawAttendee where
  email : String
  response : String
  event_start : Instant
  event_is_attendee : Bool
deriving DecidableEq, Repr

/-- The event queryset filter: `is_attendee=True, start_datetime <= now`. -/
def eligEvents (events : List Ev) (now : Instant) : List Ev :=
  events.filter (fun e => e.is_attendee && decide (toMin e.start_datetime ≤ toMin now))

/-- The attendee queryset filter: `event__is_attendee=True, response=ACCEPTED,
event__start_datetime <= now`. -/
def eligAtts (atts : List RawAttendee) (now : Instant) : List RawAttendee :=
  atts.filter (fun a =>
    a.event_is_attendee && a.response == "accepted" && decide (toMin a.event_start ≤ toMin now))

/-- `Min('start_datetime')` over the event queryset, in minutes. -/
def earliestStart (evs : List Ev) : Option Int :=
  listMin (evs.map (fun e => toMin e.start_datetime))

/-- `_attendees_counts` on the attendee queryset. -/
def countsFromAtts (attQ : List RawAttendee) : List (String × Nat) :=
  List.insertionSort attGe (seriesCounts (attQ.map RawAttendee.email))

/-- `datetime.today() - relativedelta(months=2, day=1, hour=0, ...)`: the
(year, month) of the reference window start. -/
def refWindow (t : Instant) : Int × Nat :=
  if 3 ≤ t.month then (t.year, t.month - 2) else (t.year - 1, t.month + 10)

/-- A `ReportCalculator` instance: the immutable construction-time data, the
ambient clock stream with the index of its next unread position, and the three
lazily-filled `cached_property` slots. -/
structure Calc where
  tzOff : Int
  refYM : Int × Nat
  evQ : List Ev
  attQ : List RawAttendee
  clock : Nat → Instant
  pos : Nat
  cacheDf : Option (List MRow)
  cacheWeeks : Option Int
  cacheCounts : Option (List (String × Nat))

/-- `ReportCalculator.__init__`: three clock reads (`datetime.today()` for the
reference window, one `datetime.now` per queryset cutoff), queryset
construction, empty caches. -/
def mkCalc (events : List Ev) (atts : List RawAttendee) (tzOff : Int)
    (clock : Nat → Instant) : Calc :=
  { tzOff := tzOff
    refYM := refWindow (clock 0)
    evQ := eligEvents events (clock 1)
    attQ := eligAtts atts (clock 2)
    clock := clock
    pos := 3
    cacheDf := none
    cacheWeeks := none
    cacheCounts := none }

/-- Access of the `_monthly_events_df` cached property. -/
def getDf (s : Calc) : List MRow × Calc :=
  match s.cacheDf with
  | some d => (d, s)
  | none =>
    let d := monthlyRollup s.tzOff s.evQ
    (d, { s with cacheDf := some d })

/-- Access of the `_number_of_weeks` cached property; its `datetime.now`
consumes a clock read, and only when an earliest event exists. -/
def getWeeks (s : Calc) : Int × Calc :=
  match s.cacheWeeks with
  | some w => (w, s)
  | none =>
    match earliestStart s.evQ with
    | none => (0, { s with cacheWeeks := some 0 })
    | some m =>
      let w := weeksFrom m (toMin (s.clock s.pos))
      (w, { s with cacheWeeks := some w, pos := s.pos + 1 })

/-- Access of the `_attendees_counts` cached property. -/
def getCounts (s : Calc) : List (String × Nat) × Calc :=
  match s.cacheCounts with
  | some c => (c, s)
  | none =>
    let c := countsFromAtts s.attQ
    (c, { s with cacheCounts := some c })

/-- The three public report methods. -/
inductive Method where
  | numberOfEvents
  | timeSpent
  | attendee
deriving DecidableEq, Repr

/-- A report value returned by a method call. -/
inductive Output where
  | countRep (r : CountReport)
  | timeRep (r : TimeReport)
  | attRep (l : List AttEntry)
deriving DecidableEq, Repr

/-- One report-method call: each method touches its cached properties in the
source order (monthly frame, then week count; or the attendee counts). -/
def step (m : Method) (s : Calc) : Output × Calc :=
  match m with
  | .numberOfEvents =>
    let (df, s1) := getDf s
    let (w, s2) := getWeeks s1
    (.countRep (numberOfEvents df s2.refYM w), s2)
  | .timeSpent =>
    let (df, s1) := getDf s
    let (w, s2) := getWeeks s1
    (.timeRep (timeSpent df s2.refYM w), s2)
  | .attendee =>
    let (c, s1) := getCounts s
    (.attRep (attendeeReport c), s1)

/-- Run a sequence of report-method calls, keeping the final state. -/
def runCalls (s : Calc) (ms : List Method) : Calc :=
  ms.foldl (fun s m => (step m s).2) s

/-- The value `_monthly_events_df` holds once computed, as a function of the
construction data and the clock stream. -/
def canonDf (events : List Ev) (tz : Int) (clock : Nat → Instant) : List MRow :=
  monthlyRollup tz (eligEvents events (clock 1))

/-- The value `_number_of_weeks` holds once computed: its `datetime.now` is the
fourth clock read (index 3), the one after the three construction reads. -/
def canonW (events : List Ev) (clock : Nat → Instant) : Int :=
  numberOfWeeks (earliestStart (eligEvents events (clock 1))) (toMin (clock 3))

/-- The value `_attendees_counts` holds once computed. -/
def canonCounts (atts : List RawAttendee) (clock : Nat → Instant) : List (String × Nat) :=
  countsFromAtts (eligAtts atts (clock 2))

/-- The report each method returns, as a function of construction data and
clock stream alone. -/
def canonOut (events : List Ev) (atts : List RawAttendee) (tz : Int)
    (clock : Nat → Instant) : Method → Output
  | .numberOfEvents =>
    .countRep (numberOfEvents (canonDf events tz clock) (refWindow (clock 0))
      (canonW events clock))
  | .timeSpent =>
    .timeRep (timeSpent (canonDf events tz clock) (refWindow (clock 0))
      (canonW events clock))
  | .attendee => .attRep (attendeeReport (canonCounts atts clock))

/-- The reachable-state invariant of a calculator built by `mkCalc`: the
construction data is fixed, and each cache slot is either still unset or holds
its canonical value; the weeks clock read happens at stream position 3. -/
def Inv (events : List Ev) (atts : List RawAttendee) (tz : Int)
    (clock : Nat → Instant) (s : Calc) : Prop :=
  s.tzOff = tz ∧ s.refYM = refWindow (clock 0) ∧
  s.evQ = eligEvents events (clock 1) ∧ s.attQ = eligAtts atts (clock 2) ∧
  s.clock = clock ∧
  (s.cacheDf = none ∨ s.cacheDf = some (canonDf events tz clock)) ∧
  ((s.cacheWeeks = none ∧ s.pos = 3) ∨ s.cacheWeeks = some (canonW events clock)) ∧
  (s.cacheCounts = none ∨ s.cacheCounts = some (canonCounts atts clock))

/-- The duration rendering the specification's words describe: Python's
`str(datetime.timedelta)` "D days, H:MM:SS" style — unpadded hours, a comma,
and the days part only when nonzero. Stated from the spec, for comparison
with the code's `pdTimedeltaStr`. -/
def specStyleDurationStr (secs : Int) : String :=
  let d := secs.fdiv 86400
  let r := (secs.fmod 86400).toNat
  let hms := toString (r / 3600) ++ ":" ++ pad2 (r % 3600 / 60) ++ ":" ++ pad2 (r % 60)
  if d = 0 then hms
  else if d = 1 then "1 day, " ++ hms
  else toString d ++ " days, " ++ hms

/-- Concrete monthly frame used for counterexamples and witnesses: the §8
scenario table (counts 5, 8, 10, 15, 18 over 2019 months 1, 11, 2, 9, 7 with
4h, 1h, 32h, 2h, 9h spent). -/
def rowsEx : List MRow :=
  [⟨2019, 1, 4 * 3600, 5⟩, ⟨2019, 11, 1 * 3600, 8⟩, ⟨2019, 2, 32 * 3600, 10⟩,
   ⟨2019, 9, 2 * 3600, 15⟩, ⟨2019, 7, 9 * 3600, 18⟩]

/-- A one-event store used by the clock counterexample: one accepted event of
one hour on 2024-01-01. -/
def evEx : List Ev :=
  [⟨⟨2024, 1, 1, 0, 0⟩, ⟨2024, 1, 1, 1, 0⟩, true⟩]

/-- A clock stream whose construction-time reads (positions 0..2) are
2024-06-01 and whose fourth read is 2024-03-11 (70 days after the event). -/
def clockC : Nat → Instant :=
  fun n => if n = 3 then ⟨2024, 3, 11, 0, 0⟩ else ⟨2024, 6, 1, 0, 0⟩

/-- A clock stream agreeing with `clockC` on positions 0..2 whose fourth read
is 2024-05-20 (140 days after the event). -/
def clockD : Nat → Instant :=
  fun n => if n = 3 then ⟨2024, 5, 20, 0, 0⟩ else ⟨2024, 6, 1, 0, 0⟩

/-- A constant clock stream. -/
def clockE : Nat → Instant := fun _ => ⟨2024, 6, 1, 0, 0⟩

/-- A clock stream agreeing with `clockE` on positions 0..3 only. -/
def clockF : Nat → Instant :=
  fun n => if n ≤ 3 then ⟨2024, 6, 1, 0, 0⟩ else ⟨2030, 1, 1, 0, 0⟩

/-- The §8 scenario-5 count series (ties at 7 for third place). -/
def seriesEx : List (String × Nat) :=
  [("a@gmail.com", 11), ("b@gmail.com", 9), ("c@gmail.com", 7), ("d@gmail.com", 6),
   ("e@gmail.com", 5), ("f@gmail.com", 7)]

/-- Concrete provider attendee records: the reporting user ("me@x.com", marked
`self`) appears once declined and once accepted, next to one collaborator. -/
def recsEx : List ARecord :=
  [⟨"me@x.com", "declined", true⟩, ⟨"a@x.com", "accepted", false⟩,
   ⟨"me@x.com", "accepted", true⟩]

/-- The trivial event-eligibility filter. -/
def eligAll : StoredAttendee → Bool := fun _ => true

end GCal

/-! ## Helper lemmas -/

namespace GCal

theorem halfEvenDiv_zero_left (b : Int) : halfEvenDiv 0 b = 0 := by
  unfold halfEvenDiv
  simp only [Int.zero_fdiv, Int.zero_fmod, mul_zero]
  split_ifs <;> omega

theorem mem_nlargest1All {α : Type} [LinearOrder α] {l : List (Entry α)} {e : Entry α}
    (h : e ∈ nlargest1All l) : e ∈ l := by
  unfold nlargest1All at h
  split at h
  · simp at h
  · exact List.mem_of_mem_filter h

theorem mem_nsmallest1All {α : Type} [LinearOrder α] {l : List (Entry α)} {e : Entry α}
    (h : e ∈ nsmallest1All l) : e ∈ l := by
  unfold nsmallest1All at h
  split at h
  · simp at h
  · exact List.mem_of_mem_filter h

theorem rendered_from_rows {rows : List MRow} {x : Entry Int}
    (h : x ∈ (List.insertionSort byVal (rows.map toRowD)).map renderRow) :
    ∃ r ∈ rows, x.value = r.duration := by
  obtain ⟨rr, hrr, rfl⟩ := List.mem_map.mp h
  have hmem : rr ∈ rows.map toRowD := (List.perm_insertionSort byVal _).mem_iff.mp hrr
  obtain ⟨r, hr, rfl⟩ := List.mem_map.mp hmem
  exact ⟨r, hr, rfl⟩

theorem window_from_rows {rows : List MRow} {ref : Int × Nat} {x : Entry Int}
    (h : x ∈ windowEntries ref (rows.map toRowD)) :
    ∃ r ∈ rows, x.value = r.duration := by
  unfold windowEntries at h
  obtain ⟨rr, hrr, rfl⟩ := List.mem_map.mp h
  have h2 : rr ∈ (rows.map toRowD).filter (windowMask ref) :=
    (List.perm_insertionSort byYM _).mem_iff.mp hrr
  have h3 : rr ∈ rows.map toRowD := List.mem_of_mem_filter h2
  obtain ⟨r, hr, rfl⟩ := List.mem_map.mp h3
  exact ⟨r, hr, rfl⟩

theorem listMax_eq_none {α : Type} [LinearOrder α] {l : List α} :
    listMax l = none ↔ l = [] := by
  cases l with
  | nil => simp [listMax]
  | cons a as => cases h : listMax as <;> simp [listMax, h]

theorem listMax_spec {α : Type} [LinearOrder α] {l : List α} (hne : l ≠ []) :
    ∃ M, listMax l = some M ∧ M ∈ l ∧ ∀ x ∈ l, x ≤ M := by
  induction l with
  | nil => exact absurd rfl hne
  | cons a as ih =>
    cases hm : listMax as with
    | none =>
      have has : as = [] := listMax_eq_none.mp hm
      subst has
      exact ⟨a, by simp [listMax], by simp, by simp⟩
    | some b =>
      have hasne : as ≠ [] := by
        intro h
        subst h
        simp [listMax] at hm
      obtain ⟨M, hM, hmem, hbound⟩ := ih hasne
      rw [hm] at hM
      injection hM with hMb
      subst hMb
      refine ⟨max a b, by simp [listMax, hm], ?_, ?_⟩
      · rcases le_total a b with h | h
        · exact List.mem_cons_of_mem a (by rwa [max_eq_right h])
        · rw [max_eq_left h]; exact List.mem_cons_self a as
      · intro x hx
        rcases List.mem_cons.mp hx with rfl | hx
        · exact le_max_left _ _
        · exact le_trans (hbound x hx) (le_max_right _ _)

theorem listMin_eq_none {α : Type} [LinearOrder α] {l : List α} :
    listMin l = none ↔ l = [] := by
  cases l with
  | nil => simp [listMin]
  | cons a as => cases h : listMin as <;> simp [listMin, h]

theorem listMin_spec {α : Type} [LinearOrder α] {l : List α} (hne : l ≠ []) :
    ∃ M, listMin l = some M ∧ M ∈ l ∧ ∀ x ∈ l, M ≤ x := by
  induction l with
  | nil => exact absurd rfl hne
  | cons a as ih =>
    cases hm : listMin as with
    | none =>
      have has : as = [] := listMin_eq_none.mp hm
      subst has
      exact ⟨a, by simp [listMin], by simp, by simp⟩
    | some b =>
      have hasne : as ≠ [] := by
        intro h
        subst h
        simp [listMin] at hm
      obtain ⟨M, hM, hmem, hbound⟩ := ih hasne
      rw [hm] at hM
      injection hM with hMb
      subst hMb
      refine ⟨min a b, by simp [listMin, hm], ?_, ?_⟩
      · rcases le_total a b with h | h
        · rw [min_eq_left h]; exact List.mem_cons_self a as
        · exact List.mem_cons_of_mem a (by rwa [min_eq_right h])
      · intro x hx
        rcases List.mem_cons.mp hx with rfl | hx
        · exact min_le_left _ _
        · exact le_trans (min_le_right _ _) (hbound x hx)

theorem nlargest1All_perm {α : Type} [LinearOrder α] {vrows : List (Row α)}
    (hne : vrows ≠ []) :
    ∃ M, (∃ r ∈ vrows, r.value = M) ∧ (∀ r ∈ vrows, r.value ≤ M) ∧
      (nlargest1All ((List.insertionSort byVal vrows).map renderRow)).Perm
        ((vrows.filter (fun r => decide (r.value = M))).map renderRow) := by
  have hperm : (List.insertionSort byVal vrows).Perm vrows :=
    List.perm_insertionSort byVal vrows
  have hvne : (List.insertionSort byVal vrows).map Row.value ≠ [] := by
    intro h
    rw [List.map_eq_nil_iff] at h
    have hlen := hperm.length_eq
    rw [h] at hlen
    exact hne (List.length_eq_zero.mp hlen.symm)
  obtain ⟨M, hM, hmem, hbound⟩ := listMax_spec hvne
  refine ⟨M, ?_, ?_, ?_⟩
  · obtain ⟨r, hr, hv⟩ := List.mem_map.mp hmem
    exact ⟨r, hperm.mem_iff.mp hr, hv⟩
  · intro r hr
    exact hbound r.value (List.mem_map_of_mem Row.value (hperm.mem_iff.mpr hr))
  · have hkey : ((List.insertionSort byVal vrows).map renderRow).map Entry.value =
        (List.insertionSort byVal vrows).map Row.value := by
      rw [List.map_map]; rfl
    unfold nlargest1All
    rw [hkey, hM]
    show (List.filter (fun e => decide (e.value = M))
      ((List.insertionSort byVal vrows).map renderRow)).Perm _
    rw [List.filter_map]
    exact ((hperm.filter (fun r => decide (r.value = M))).map renderRow)

theorem nsmallest1All_perm {α : Type} [LinearOrder α] {vrows : List (Row α)}
    (hne : vrows ≠ []) :
    ∃ M, (∃ r ∈ vrows, r.value = M) ∧ (∀ r ∈ vrows, M ≤ r.value) ∧
      (nsmallest1All ((List.insertionSort byVal vrows).map renderRow)).Perm
        ((vrows.filter (fun r => decide (r.value = M))).map renderRow) := by
  have hperm : (List.insertionSort byVal vrows).Perm vrows :=
    List.perm_insertionSort byVal vrows
  have hvne : (List.insertionSort byVal vrows).map Row.value ≠ [] := by
    intro h
    rw [List.map_eq_nil_iff] at h
    have hlen := hperm.length_eq
    rw [h] at hlen
    exact hne (List.length_eq_zero.mp hlen.symm)
  obtain ⟨M, hM, hmem, hbound⟩ := listMin_spec hvne
  refine ⟨M, ?_, ?_, ?_⟩
  · obtain ⟨r, hr, hv⟩ := List.mem_map.mp hmem
    exact ⟨r, hperm.mem_iff.mp hr, hv⟩
  · intro r hr
    exact hbound r.value (List.mem_map_of_mem Row.value (hperm.mem_iff.mpr hr))
  · have hkey : ((List.insertionSort byVal vrows).map renderRow).map Entry.value =
        (List.insertionSort byVal vrows).map Row.value := by
      rw [List.map_map]; rfl
    unfold nsmallest1All
    rw [hkey, hM]
    show (List.filter (fun e => decide (e.value = M))
      ((List.insertionSort byVal vrows).map renderRow)).Perm _
    rw [List.filter_map]
    exact ((hperm.filter (fun r => decide (r.value = M))).map renderRow)

theorem orderedInsert_map {β γ : Type} (f : β → γ) (r : γ → γ → Prop) (r' : β → β → Prop)
    [DecidableRel r] [DecidableRel r'] (hiff : ∀ x y, r (f x) (f y) ↔ r' x y)
    (a : β) (l : List β) :
    List.orderedInsert r (f a) (l.map f) = (List.orderedInsert r' a l).map f := by
  induction l with
  | nil => rfl
  | cons b t ih =>
    simp only [List.map_cons, List.orderedInsert]
    by_cases h : r' a b
    · rw [if_pos ((hiff a b).mpr h), if_pos h, List.map_cons, List.map_cons]
    · rw [if_neg (fun hc => h ((hiff a b).mp hc)), if_neg h, List.map_cons, ih]

theorem insertionSort_map {β γ : Type} (f : β → γ) (r : γ → γ → Prop) (r' : β → β → Prop)
    [DecidableRel r] [DecidableRel r'] (hiff : ∀ x y, r (f x) (f y) ↔ r' x y)
    (l : List β) :
    List.insertionSort r (l.map f) = (List.insertionSort r' l).map f := by
  induction l with
  | nil => rfl
  | cons b t ih =>
    simp only [List.map_cons, List.insertionSort, ih,
      orderedInsert_map f r r' hiff]

theorem sorted_split_prop {s : List (String × Nat)} {t : String × Nat}
    {rest : List (String × Nat)}
    (hdr : (List.insertionSort attGe s).drop 2 = t :: rest) :
    (∀ x ∈ (List.insertionSort attGe s).take 2, t.2 ≤ x.2) ∧
    (∀ y ∈ (List.insertionSort attGe s).drop 2, y.2 ≤ t.2) ∧
    t ∈ List.insertionSort attGe s := by
  have hsort : List.Pairwise attGe (List.insertionSort attGe s) :=
    List.sorted_insertionSort attGe s
  have hsplit : List.Pairwise attGe
      ((List.insertionSort attGe s).take 2 ++ (List.insertionSort attGe s).drop 2) := by
    rw [List.take_append_drop]
    exact hsort
  obtain ⟨h1, h2, hcross⟩ := List.pairwise_append.mp hsplit
  rw [hdr] at h2
  refine ⟨?_, ?_, ?_⟩
  · intro x hx
    exact hcross x hx t (by rw [hdr]; exact List.mem_cons_self t rest)
  · intro y hy
    rw [hdr] at hy
    rcases List.mem_cons.mp hy with rfl | hy
    · exact le_refl _
    · exact List.rel_of_pairwise_cons h2 hy
  · exact List.drop_subset 2 _ (by rw [hdr]; exact List.mem_cons_self t rest)

theorem sum_dedup_count {κ : Type} [DecidableEq κ] (K : List κ) :
    (K.dedup.map (fun k => K.countP (fun x => decide (x = k)))).sum = K.length := by
  have hmap : K.dedup.map (fun k => K.countP (fun x => decide (x = k))) =
      K.dedup.map (fun k => K.count k) := rfl
  rw [hmap]
  have h := Multiset.toFinset_sum_count_eq (K : Multiset κ)
  simpa [Finset.sum, List.toFinset, Multiset.toFinset] using h

theorem localYM_next_month (y : Int) (m : Nat) (off : Int) (hm1 : 1 ≤ m) (hm2 : m ≤ 12)
    (ho1 : 60 ≤ off) (ho2 : off ≤ 840) :
    localYM off ⟨y, m, daysInMonth y m, 23, 30⟩ =
      if m = 12 then (y + 1, 1) else (y, m + 1) := by
  unfold localYM
  dsimp only
  have heq : ((23 : Nat) : Int) * 60 + ((30 : Nat) : Int) + off = 1410 + off := by
    norm_num
  rw [heq]
  have hfd : (1410 + off).fdiv 1440 = 1 := by
    rw [Int.fdiv_eq_ediv _ (by norm_num : (0:Int) ≤ 1440)]
    omega
  rw [hfd]
  have hsd : shiftDays 1 (y, m, daysInMonth y m) = nextDay (y, m, daysInMonth y m) := by
    show Nat.iterate nextDay 1 (y, m, daysInMonth y m) = _
    rw [Function.iterate_one]
  rw [hsd]
  simp only [nextDay]
  rw [if_neg (lt_irrefl (daysInMonth y m))]
  by_cases h12 : m = 12
  · subst h12
    rw [if_neg (by omega : ¬ (12:Nat) < 12), if_pos rfl]
  · rw [if_pos (by omega : m < 12), if_neg h12]

theorem camelToSnakeL_no_underscore :
    ∀ (l t : List Char), '_' ∉ t → camelToSnakeL l = t → l = t := by
  intro l
  induction l with
  | nil =>
    intro t _ h
    exact h
  | cons c cs ih =>
    intro t hnu h
    unfold camelToSnakeL at h
    by_cases hc : c.isLower
    · rw [if_pos hc] at h
      cases t with
      | nil => exact absurd h (by simp)
      | cons d ds =>
        injection h with h1 h2
        subst h1
        rw [ih ds (fun hm => hnu (List.mem_cons_of_mem _ hm)) h2]
    · rw [if_neg hc] at h
      cases t with
      | nil => exact absurd h (by simp)
      | cons d ds =>
        injection h with h1 h2
        subst h1
        exact absurd (List.mem_cons_self _ _) hnu

theorem camelToSnake_accepted {s : String} (h : camelToSnake s = "accepted") :
    s = "accepted" := by
  unfold camelToSnake at h
  have hd : camelToSnakeL s.data = "accepted".data := congrArg String.data h
  have hdata : s.data = "accepted".data :=
    camelToSnakeL_no_underscore _ _ (by decide) hd
  cases s with
  | mk data => exact congrArg String.mk hdata

theorem mem_nlargestSeries {n : Nat} {s : List (String × Nat)} {p : String × Nat}
    (h : p ∈ nlargestSeries n s) : p ∈ s := by
  unfold nlargestSeries at h
  split at h
  · exact (List.perm_insertionSort attGe s).mem_iff.mp h
  · exact (List.perm_insertionSort attGe s).mem_iff.mp (List.mem_of_mem_filter h)

end GCal

/-! ## State-machine lemmas: cache accesses return canonical values -/

namespace GCal

theorem getDf_none {s : Calc} (h : s.cacheDf = none) :
    getDf s = (monthlyRollup s.tzOff s.evQ,
      { s with cacheDf := some (monthlyRollup s.tzOff s.evQ) }) := by
  unfold getDf
  rw [h]

theorem getDf_some {s : Calc} {d : List MRow} (h : s.cacheDf = some d) :
    getDf s = (d, s) := by
  unfold getDf
  rw [h]

theorem getWeeks_some {s : Calc} {w : Int} (h : s.cacheWeeks = some w) :
    getWeeks s = (w, s) := by
  unfold getWeeks
  rw [h]

theorem getWeeks_none_none {s : Calc} (h : s.cacheWeeks = none)
    (he : earliestStart s.evQ = none) :
    getWeeks s = (0, { s with cacheWeeks := some 0 }) := by
  unfold getWeeks
  rw [h, he]

theorem getWeeks_none_some {s : Calc} {mn : Int} (h : s.cacheWeeks = none)
    (he : earliestStart s.evQ = some mn) :
    getWeeks s = (weeksFrom mn (toMin (s.clock s.pos)),
      { s with cacheWeeks := some (weeksFrom mn (toMin (s.clock s.pos))),
               pos := s.pos + 1 }) := by
  unfold getWeeks
  rw [h, he]

theorem getCounts_none {s : Calc} (h : s.cacheCounts = none) :
    getCounts s = (countsFromAtts s.attQ,
      { s with cacheCounts := some (countsFromAtts s.attQ) }) := by
  unfold getCounts
  rw [h]

theorem getCounts_some {s : Calc} {c : List (String × Nat)}
    (h : s.cacheCounts = some c) : getCounts s = (c, s) := by
  unfold getCounts
  rw [h]

theorem inv_mkCalc (events : List Ev) (atts : List RawAttendee) (tz : Int)
    (clock : Nat → Instant) :
    Inv events atts tz clock (mkCalc events atts tz clock) :=
  ⟨rfl, rfl, rfl, rfl, rfl, Or.inl rfl, Or.inl ⟨rfl, rfl⟩, Or.inl rfl⟩

theorem getDf_spec {events : List Ev} {atts : List RawAttendee} {tz : Int}
    {clock : Nat → Instant} {s : Calc} (h : Inv events atts tz clock s) :
    (getDf s).1 = canonDf events tz clock ∧ Inv events atts tz clock (getDf s).2 := by
  obtain ⟨h1, h2, h3, h4, h5, h6, h7, h8⟩ := h
  rcases h6 with h6 | h6
  · rw [getDf_none h6]
    have hd : monthlyRollup s.tzOff s.evQ = canonDf events tz clock := by
      rw [h1, h3]
      rfl
    exact ⟨hd, h1, h2, h3, h4, h5, Or.inr (congrArg some hd), h7, h8⟩
  · rw [getDf_some h6]
    exact ⟨rfl, h1, h2, h3, h4, h5, Or.inr h6, h7, h8⟩

theorem getWeeks_spec {events : List Ev} {atts : List RawAttendee} {tz : Int}
    {clock : Nat → Instant} {s : Calc} (h : Inv events atts tz clock s) :
    (getWeeks s).1 = canonW events clock ∧ Inv events atts tz clock (getWeeks s).2 := by
  obtain ⟨h1, h2, h3, h4, h5, h6, h7, h8⟩ := h
  rcases h7 with ⟨h7n, h7p⟩ | h7s
  · cases he : earliestStart s.evQ with
    | none =>
      rw [getWeeks_none_none h7n he]
      have hw : (0 : Int) = canonW events clock := by
        unfold canonW
        rw [← h3, he]
        rfl
      exact ⟨hw, h1, h2, h3, h4, h5, h6, Or.inr (congrArg some hw), h8⟩
    | some mn =>
      rw [getWeeks_none_some h7n he]
      have hw : weeksFrom mn (toMin (s.clock s.pos)) = canonW events clock := by
        rw [h5, h7p]
        unfold canonW
        rw [← h3, he]
        rfl
      exact ⟨hw, h1, h2, h3, h4, h5, h6, Or.inr (congrArg some hw), h8⟩
  · rw [getWeeks_some h7s]
    exact ⟨rfl, h1, h2, h3, h4, h5, h6, Or.inr h7s, h8⟩

theorem getCounts_spec {events : List Ev} {atts : List RawAttendee} {tz : Int}
    {clock : Nat → Instant} {s : Calc} (h : Inv events atts tz clock s) :
    (getCounts s).1 = canonCounts atts clock ∧
    Inv events atts tz clock (getCounts s).2 := by
  obtain ⟨h1, h2, h3, h4, h5, h6, h7, h8⟩ := h
  rcases h8 with h8 | h8
  · rw [getCounts_none h8]
    have hc : countsFromAtts s.attQ = canonCounts atts clock := by
      rw [h4]
      rfl
    exact ⟨hc, h1, h2, h3, h4, h5, h6, h7, Or.inr (congrArg some hc)⟩
  · rw [getCounts_some h8]
    exact ⟨rfl, h1, h2, h3, h4, h5, h6, h7, Or.inr h8⟩

theorem step_spec {events : List Ev} {atts : List RawAttendee} {tz : Int}
    {clock : Nat → Instant} {s : Calc} (h : Inv events atts tz clock s) (m : Method) :
    (step m s).1 = canonOut events atts tz clock m ∧
    Inv events atts tz clock (step m s).2 := by
  cases m with
  | numberOfEvents =>
    obtain ⟨hdf, hinv1⟩ := getDf_spec h
    obtain ⟨hw, hinv2⟩ := getWeeks_spec hinv1
    have href : (getWeeks (getDf s).2).2.refYM = refWindow (clock 0) := hinv2.2.1
    constructor
    · show Output.countRep (numberOfEvents (getDf s).1 ((getWeeks (getDf s).2).2.refYM)
        ((getWeeks (getDf s).2).1)) = _
      rw [hdf, hw, href]
      rfl
    · exact hinv2
  | timeSpent =>
    obtain ⟨hdf, hinv1⟩ := getDf_spec h
    obtain ⟨hw, hinv2⟩ := getWeeks_spec hinv1
    have href : (getWeeks (getDf s).2).2.refYM = refWindow (clock 0) := hinv2.2.1
    constructor
    · show Output.timeRep (timeSpent (getDf s).1 ((getWeeks (getDf s).2).2.refYM)
        ((getWeeks (getDf s).2).1)) = _
      rw [hdf, hw, href]
      rfl
    · exact hinv2
  | attendee =>
    obtain ⟨hc, hinv1⟩ := getCounts_spec h
    constructor
    · show Output.attRep (attendeeReport (getCounts s).1) = _
      rw [hc]
      rfl
    · exact hinv1

theorem run_inv {events : List Ev} {atts : List RawAttendee} {tz : Int}
    {clock : Nat → Instant} (s : Calc) (h : Inv events atts tz clock s)
    (ms : List Method) : Inv events atts tz clock (runCalls s ms) := by
  induction ms generalizing s with
  | nil => exact h
  | cons m ms ih => exact ih _ (step_spec h m).2

end GCal

/-! ## The claims -/

namespace GCal

/-- Claim C1: in both reports, `most` and `least` hold exactly the buckets
whose metric value (count, resp. total duration) attains the global maximum,
resp. minimum, over all buckets — every tied bucket kept, the selection
ranging over the whole table — and an empty table yields empty lists. -/
theorem c1_most_least_tie_inclusive (rows : List MRow) (ref : Int × Nat) (weeks : Int) :
    (rows = [] →
      (numberOfEvents rows ref weeks).most = [] ∧
      (numberOfEvents rows ref weeks).least = [] ∧
      (timeSpent rows ref weeks).most = [] ∧
      (timeSpent rows ref weeks).least = []) ∧
    (rows ≠ [] →
      (∃ M : Nat, (∃ r ∈ rows, r.count = M) ∧ (∀ r ∈ rows, r.count ≤ M) ∧
        ((numberOfEvents rows ref weeks).most).Perm
          ((rows.filter (fun r => decide (r.count = M))).map
            (fun r => Entry.mk (monthLabel r.year r.month) r.count))) ∧
      (∃ m : Nat, (∃ r ∈ rows, r.count = m) ∧ (∀ r ∈ rows, m ≤ r.count) ∧
        ((numberOfEvents rows ref weeks).least).Perm
          ((rows.filter (fun r => decide (r.count = m))).map
            (fun r => Entry.mk (monthLabel r.year r.month) r.count))) ∧
      (∃ D : Int, (∃ r ∈ rows, r.duration = D) ∧ (∀ r ∈ rows, r.duration ≤ D) ∧
        ((timeSpent rows ref weeks).most).Perm
          ((rows.filter (fun r => decide (r.duration = D))).map
            (fun r => Entry.mk (monthLabel r.year r.month) (pdTimedeltaStr r.duration)))) ∧
      (∃ d : Int, (∃ r ∈ rows, r.duration = d) ∧ (∀ r ∈ rows, d ≤ r.duration) ∧
        ((timeSpent rows ref weeks).least).Perm
          ((rows.filter (fun r => decide (r.duration = d))).map
            (fun r => Entry.mk (monthLabel r.year r.month)
              (pdTimedeltaStr r.duration))))) := by
  constructor
  · intro h
    subst h
    exact ⟨rfl, rfl, rfl, rfl⟩
  · intro h
    have hvneC : rows.map toRowC ≠ [] := by simpa [List.map_eq_nil_iff] using h
    have hvneD : rows.map toRowD ≠ [] := by simpa [List.map_eq_nil_iff] using h
    refine ⟨?_, ?_, ?_, ?_⟩
    · obtain ⟨M, hex, hbd, hp⟩ := nlargest1All_perm hvneC
      refine ⟨M, ?_, ?_, ?_⟩
      · obtain ⟨v, hv, hval⟩ := hex
        obtain ⟨r, hr, rfl⟩ := List.mem_map.mp hv
        exact ⟨r, hr, hval⟩
      · intro r hr
        exact hbd (toRowC r) (List.mem_map_of_mem toRowC hr)
      · rw [List.filter_map, List.map_map] at hp
        exact hp
    · obtain ⟨m, hex, hbd, hp⟩ := nsmallest1All_perm hvneC
      refine ⟨m, ?_, ?_, ?_⟩
      · obtain ⟨v, hv, hval⟩ := hex
        obtain ⟨r, hr, rfl⟩ := List.mem_map.mp hv
        exact ⟨r, hr, hval⟩
      · intro r hr
        exact hbd (toRowC r) (List.mem_map_of_mem toRowC hr)
      · rw [List.filter_map, List.map_map] at hp
        exact hp
    · obtain ⟨D, hex, hbd, hp⟩ := nlargest1All_perm hvneD
      refine ⟨D, ?_, ?_, ?_⟩
      · obtain ⟨v, hv, hval⟩ := hex
        obtain ⟨r, hr, rfl⟩ := List.mem_map.mp hv
        exact ⟨r, hr, hval⟩
      · intro r hr
        exact hbd (toRowD r) (List.mem_map_of_mem toRowD hr)
      · have hp2 := hp.map strEntry
        rw [List.filter_map, List.map_map, List.map_map] at hp2
        exact hp2
    · obtain ⟨d, hex, hbd, hp⟩ := nsmallest1All_perm hvneD
      refine ⟨d, ?_, ?_, ?_⟩
      · obtain ⟨v, hv, hval⟩ := hex
        obtain ⟨r, hr, rfl⟩ := List.mem_map.mp hv
        exact ⟨r, hr, hval⟩
      · intro r hr
        exact hbd (toRowD r) (List.mem_map_of_mem toRowD hr)
      · have hp2 := hp.map strEntry
        rw [List.filter_map, List.map_map, List.map_map] at hp2
        exact hp2

/-- Witness for C1 at the §8 scenario table. -/
theorem c1_most_least_tie_inclusive_witness :
    rowsEx ≠ [] ∧
    (∃ M : Nat, (∃ r ∈ rowsEx, r.count = M) ∧ (∀ r ∈ rowsEx, r.count ≤ M) ∧
      ((numberOfEvents rowsEx (2019, 9) 48).most).Perm
        ((rowsEx.filter (fun r => decide (r.count = M))).map
          (fun r => Entry.mk (monthLabel r.year r.month) r.count))) :=
  ⟨by decide, ((c1_most_least_tie_inclusive rowsEx (2019, 9) 48).2 (by decide)).1⟩

/-- Claim C2: in both reports `last_3_months` holds exactly the buckets passing
the pointwise comparison year ≥ windowYear AND month ≥ windowMonth (each
conjunct independent, not a calendar comparison), sorted ascending by
(year, month) and rendered as a zero-padded "YYYY-MM" label with the metric
value. -/
theorem c2_last_three_months_pointwise (rows : List MRow) (ref : Int × Nat)
    (weeks : Int) :
    ∃ l : List MRow,
      l.Perm (rows.filter (fun r => decide (ref.1 ≤ r.year) && decide (ref.2 ≤ r.month))) ∧
      List.Sorted mrowYM l ∧
      (numberOfEvents rows ref weeks).last_3_months =
        l.map (fun r => Entry.mk (monthLabel r.year r.month) r.count) ∧
      (timeSpent rows ref weeks).last_3_months =
        l.map (fun r => Entry.mk (monthLabel r.year r.month)
          (pdTimedeltaStr r.duration)) := by
  refine ⟨List.insertionSort mrowYM
    (rows.filter (fun r => decide (ref.1 ≤ r.year) && decide (ref.2 ≤ r.month))),
    List.perm_insertionSort _ _, List.sorted_insertionSort _ _, ?_, ?_⟩
  · show (List.insertionSort byYM ((rows.map toRowC).filter (windowMask ref))).map
      renderRow = _
    rw [List.filter_map, insertionSort_map toRowC byYM mrowYM (fun x y => Iff.rfl),
      List.map_map]
    rfl
  · show ((List.insertionSort byYM ((rows.map toRowD).filter (windowMask ref))).map
      renderRow).map strEntry = _
    rw [List.filter_map, insertionSort_map toRowD byYM mrowYM (fun x y => Iff.rfl),
      List.map_map, List.map_map]
    rfl

/-- Claim C3: `top_attendees` ranks the count series descending and keeps the
top 3 by count together with every entry tied with the 3rd place (so the list
may be longer than 3); entries are (name, number_of_events) pairs and an empty
series yields an empty list. -/
theorem c3_top_attendees_tie_inclusive (s : List (String × Nat)) :
    (s = [] → attendeeReport s = []) ∧
    List.Sorted (fun a b : AttEntry => b.number_of_events ≤ a.number_of_events)
      (attendeeReport s) ∧
    (s.length ≤ 3 → (attendeeReport s).Perm (s.map (fun p => AttEntry.mk p.1 p.2))) ∧
    (3 < s.length → ∃ t : Nat, (∃ p ∈ s, p.2 = t) ∧
      s.countP (fun p => decide (t < p.2)) < 3 ∧
      3 ≤ s.countP (fun p => decide (t ≤ p.2)) ∧
      (attendeeReport s).Perm
        ((s.filter (fun p => decide (t ≤ p.2))).map (fun p => AttEntry.mk p.1 p.2))) := by
  have hperm : (List.insertionSort attGe s).Perm s := List.perm_insertionSort attGe s
  have hsort : List.Pairwise attGe (List.insertionSort attGe s) :=
    List.sorted_insertionSort attGe s
  have hlen : (List.insertionSort attGe s).length = s.length := hperm.length_eq
  have h21 : (3 : Nat) - 1 = 2 := rfl
  refine ⟨?_, ?_, ?_, ?_⟩
  · intro h
    subst h
    rfl
  · have hsortN : List.Pairwise attGe (nlargestSeries 3 s) := by
      unfold nlargestSeries
      split
      · exact hsort
      · exact List.Pairwise.sublist (List.filter_sublist _) hsort
    exact List.pairwise_map.mpr hsortN
  · intro h3
    unfold attendeeReport nlargestSeries
    rw [h21]
    cases hdr : (List.insertionSort attGe s).drop 2 with
    | nil =>
      exact hperm.map _
    | cons t rest =>
      have hrest : rest = [] := by
        have hl := congrArg List.length hdr
        rw [List.length_drop] at hl
        simp only [List.length_cons] at hl
        have h0 : rest.length = 0 := by omega
        exact List.length_eq_zero.mp h0
      subst hrest
      obtain ⟨htake, hdropb, htmem⟩ := sorted_split_prop hdr
      have hall : ∀ p ∈ List.insertionSort attGe s, decide (t.2 ≤ p.2) = true := by
        intro p hp
        have hp2 : p ∈ (List.insertionSort attGe s).take 2 ++
            (List.insertionSort attGe s).drop 2 := by
          rw [List.take_append_drop]; exact hp
        rcases List.mem_append.mp hp2 with hp' | hp'
        · exact decide_eq_true (htake p hp')
        · rw [hdr] at hp'
          rcases List.mem_cons.mp hp' with rfl | hp''
          · simp
          · exact absurd hp'' (List.not_mem_nil p)
      show ((List.filter (fun p => decide (t.2 ≤ p.2)) (List.insertionSort attGe s)).map
        (fun p => AttEntry.mk p.1 p.2)).Perm _
      rw [List.filter_eq_self.mpr hall]
      exact hperm.map _
  · intro h4
    cases hdr : (List.insertionSort attGe s).drop 2 with
    | nil =>
      have hl := congrArg List.length hdr
      rw [List.length_drop] at hl
      simp only [List.length_nil] at hl
      omega
    | cons t rest =>
      obtain ⟨htake, hdropb, htmem⟩ := sorted_split_prop hdr
      refine ⟨t.2, ⟨t, hperm.mem_iff.mp htmem, rfl⟩, ?_, ?_, ?_⟩
      · rw [← hperm.countP_eq]
        rw [← List.take_append_drop 2 (List.insertionSort attGe s), List.countP_append]
        have hA : List.countP (fun p => decide (t.2 < p.2))
            ((List.insertionSort attGe s).take 2) ≤ 2 := by
          refine le_trans (List.countP_le_length _) ?_
          rw [List.length_take]
          omega
        have hB : List.countP (fun p => decide (t.2 < p.2))
            ((List.insertionSort attGe s).drop 2) = 0 := by
          refine List.countP_eq_zero.mpr ?_
          intro y hy
          simpa using not_lt.mpr (hdropb y hy)
        omega
      · rw [← hperm.countP_eq]
        rw [← List.take_append_drop 2 (List.insertionSort attGe s), List.countP_append]
        have hA : List.countP (fun p => decide (t.2 ≤ p.2))
            ((List.insertionSort attGe s).take 2) = 2 := by
          have hc := List.countP_eq_length.mpr
            (fun x hx => decide_eq_true (htake x hx))
          rw [hc, List.length_take]
          omega
        have hB : 1 ≤ List.countP (fun p => decide (t.2 ≤ p.2))
            ((List.insertionSort attGe s).drop 2) := by
          rw [hdr, List.countP_cons]
          simp
        omega
      · unfold attendeeReport nlargestSeries
        rw [h21, hdr]
        exact (hperm.filter _).map _

/-- Witness for C3 at the §8 scenario-5 series (c and f tie at 7). -/
theorem c3_top_attendees_tie_inclusive_witness :
    3 < seriesEx.length ∧
    (∃ t : Nat, (∃ p ∈ seriesEx, p.2 = t) ∧
      seriesEx.countP (fun p => decide (t < p.2)) < 3 ∧
      3 ≤ seriesEx.countP (fun p => decide (t ≤ p.2)) ∧
      (attendeeReport seriesEx).Perm
        ((seriesEx.filter (fun p => decide (t ≤ p.2))).map
          (fun p => AttEntry.mk p.1 p.2))) :=
  ⟨by decide, (c3_top_attendees_tie_inclusive seriesEx).2.2.2 (by decide)⟩

end GCal

namespace GCal

/-- Claim C4: the monthly rollup assigns each eligible event to exactly one
bucket, keyed by the localized (user-timezone) year and month of its start;
each bucket's count and duration aggregate exactly its events, the counts sum
to the number of eligible events, and an event starting 23:30 UTC on the last
day of a month buckets into the next local month for any timezone from +1:00
up to +14:00. -/
theorem c4_monthly_bucketing (off : Int) (evs : List Ev) (y : Int) (m : Nat)
    (off2 : Int) (hm1 : 1 ≤ m) (hm2 : m ≤ 12) (ho1 : 60 ≤ off2) (ho2 : off2 ≤ 840) :
    (∀ e ∈ evs, ∃! r, r ∈ monthlyRollup off evs ∧ (r.year, r.month) = evKey off e) ∧
    (∀ r ∈ monthlyRollup off evs,
      r.count = (evs.filter (fun e => decide (evKey off e = (r.year, r.month)))).length ∧
      r.duration =
        ((evs.filter (fun e => decide (evKey off e = (r.year, r.month)))).map
          durationSec).sum) ∧
    ((monthlyRollup off evs).map MRow.count).sum = evs.length ∧
    localYM off2 ⟨y, m, daysInMonth y m, 23, 30⟩ =
      (if m = 12 then (y + 1, 1) else (y, m + 1)) := by
  refine ⟨?_, ?_, ?_, localYM_next_month y m off2 hm1 hm2 ho1 ho2⟩
  · intro e he
    have hk : evKey off e ∈ (evs.map (evKey off)).dedup :=
      List.mem_dedup.mpr (List.mem_map_of_mem (evKey off) he)
    refine ⟨⟨(evKey off e).1, (evKey off e).2,
      ((evs.filter (fun e' => decide (evKey off e' = evKey off e))).map durationSec).sum,
      (evs.filter (fun e' => decide (evKey off e' = evKey off e))).length⟩,
      ⟨?_, rfl⟩, ?_⟩
    · exact List.mem_map_of_mem _ hk
    · rintro r' ⟨hr', hkey⟩
      obtain ⟨k', hk', rfl⟩ := List.mem_map.mp hr'
      have hs : k' = evKey off e := hkey
      subst hs
      rfl
  · intro r hr
    obtain ⟨k', hk', rfl⟩ := List.mem_map.mp hr
    exact ⟨rfl, rfl⟩
  · unfold monthlyRollup
    rw [List.map_map]
    have hcongr : ((evs.map (evKey off)).dedup.map
        ((fun r : MRow => r.count) ∘ (fun k =>
          MRow.mk k.1 k.2 ((evs.filter (fun e => decide (evKey off e = k))).map
            durationSec).sum (evs.filter (fun e => decide (evKey off e = k))).length))) =
        (evs.map (evKey off)).dedup.map
          (fun k => (evs.map (evKey off)).countP (fun x => decide (x = k))) := by
      apply List.map_congr_left
      intro k _
      show (evs.filter (fun e => decide (evKey off e = k))).length = _
      rw [← List.countP_eq_length_filter]
      rw [List.countP_map]
      rfl
    rw [hcongr, sum_dedup_count]
    rw [List.length_map]

/-- Witness for C4: March 2019 at offset +1:00 rolls into April. -/
theorem c4_monthly_bucketing_witness :
    ((1 ≤ 3 ∧ 3 ≤ 12) ∧ (60 : Int) ≤ 60 ∧ (60 : Int) ≤ 840) ∧
    localYM 60 ⟨2019, 3, daysInMonth 2019 3, 23, 30⟩ =
      (if 3 = 12 then ((2019 : Int) + 1, 1) else ((2019 : Int), 3 + 1)) :=
  ⟨⟨⟨by decide, by decide⟩, by decide, by decide⟩,
    (c4_monthly_bucketing 0 evEx 2019 3 60 (by decide) (by decide) (by decide)
      (by decide)).2.2.2⟩

/-- Claim C5 counterexample: with zero weeks, the `time_spent` report's
`weekly_average` is the number 0, not a zero-duration rendering. -/
theorem c5_time_weekly_average_counterexample :
    (timeSpent rowsEx (2019, 9) 0).weekly_average = PyVal.int 0 ∧
    PyVal.int 0 ≠ PyVal.str (pdTimedeltaStr 0) := by
  decide

/-- Claim C5 (amended): the weekly denominator is
round(daysBetween(earliest, now) / 7), it is 0 when there is no eligible
event, and zero weeks makes `number_of_events` report a weekly average of 0
and `time_spent` report the number 0 — no division, no error. -/
theorem c5_weeks_denominator_zero_guard (rows : List MRow) (ref : Int × Nat)
    (startMin nowMin : Int) :
    numberOfWeeks none nowMin = 0 ∧
    earliestStart [] = none ∧
    numberOfWeeks (some startMin) nowMin =
      halfEvenDiv ((nowMin - startMin).fdiv 1440) 7 ∧
    (numberOfEvents rows ref 0).weekly_average = 0 ∧
    (timeSpent rows ref 0).weekly_average = PyVal.int 0 := by
  refine ⟨rfl, rfl, rfl, ?_, ?_⟩ <;> simp [numberOfEvents, timeSpent]

/-- Claim C6: an empty bucket table degrades every report field to its zero
value — zero total, empty lists, zero weekly average (the number 0 when weeks
is 0, a zero-duration string otherwise for the time metric). -/
theorem c6_empty_table_degrades (ref : Int × Nat) (weeks : Int) :
    numberOfEvents [] ref weeks = ⟨0, [], [], [], 0⟩ ∧
    timeSpent [] ref weeks =
      ⟨"0 days 00:00:00", [], [], [],
        if weeks = 0 then PyVal.int 0 else PyVal.str "0 days 00:00:00"⟩ := by
  constructor
  · simp [numberOfEvents, windowEntries, nlargest1All, nsmallest1All, listMax, listMin,
      halfEvenDiv_zero_left]
  · simp [timeSpent, windowEntries, nlargest1All, nsmallest1All, listMax, listMin,
      halfEvenDiv_zero_left]
    constructor
    · decide
    · split_ifs <;> decide

/-- Claim C7 counterexample: the code renders two days as "2 days 00:00:00"
(pandas style), not the spec's "2 days, 0:00:00" (Python timedelta style). -/
theorem c7_duration_style_counterexample :
    (timeSpent rowsEx (2019, 9) 48).total = "2 days 00:00:00" ∧
    specStyleDurationStr (2 * 86400) = "2 days, 0:00:00" ∧
    ("2 days 00:00:00" : String) ≠ "2 days, 0:00:00" := by
  decide

/-- Claim C7 (amended): every duration value of the `time_spent` report is the
pandas rendering "D days HH:MM:SS" of the corresponding duration, and the
weekly average is the total seconds divided by weeks rounded half-to-even to a
whole second and rendered the same way — except the number 0 when weeks is
0. -/
theorem c7_duration_rendering (rows : List MRow) (ref : Int × Nat) (weeks : Int) :
    (timeSpent rows ref weeks).total = pdTimedeltaStr ((rows.map MRow.duration).sum) ∧
    (∀ e ∈ (timeSpent rows ref weeks).most,
      ∃ r ∈ rows, e.value = pdTimedeltaStr r.duration) ∧
    (∀ e ∈ (timeSpent rows ref weeks).least,
      ∃ r ∈ rows, e.value = pdTimedeltaStr r.duration) ∧
    (∀ e ∈ (timeSpent rows ref weeks).last_3_months,
      ∃ r ∈ rows, e.value = pdTimedeltaStr r.duration) ∧
    (weeks = 0 → (timeSpent rows ref weeks).weekly_average = PyVal.int 0) ∧
    (weeks ≠ 0 → (timeSpent rows ref weeks).weekly_average =
      PyVal.str (pdTimedeltaStr (halfEvenDiv ((rows.map MRow.duration).sum) weeks))) ∧
    pdTimedeltaStr 172800 = "2 days 00:00:00" ∧
    pdTimedeltaStr 115200 = "1 days 08:00:00" ∧
    pdTimedeltaStr 3600 = "0 days 01:00:00" := by
  refine ⟨?_, ?_, ?_, ?_, ?_, ?_, by decide, by decide, by decide⟩
  · show pdTimedeltaStr (((rows.map toRowD).map Row.value).sum) = _
    rw [List.map_map]
    rfl
  · intro e he
    obtain ⟨e', he', rfl⟩ := List.mem_map.mp he
    obtain ⟨r, hr, hv⟩ := rendered_from_rows (mem_nlargest1All he')
    exact ⟨r, hr, by show pdTimedeltaStr e'.value = _; rw [hv]⟩
  · intro e he
    obtain ⟨e', he', rfl⟩ := List.mem_map.mp he
    obtain ⟨r, hr, hv⟩ := rendered_from_rows (mem_nsmallest1All he')
    exact ⟨r, hr, by show pdTimedeltaStr e'.value = _; rw [hv]⟩
  · intro e he
    obtain ⟨e', he', rfl⟩ := List.mem_map.mp he
    obtain ⟨r, hr, hv⟩ := window_from_rows he'
    exact ⟨r, hr, by show pdTimedeltaStr e'.value = _; rw [hv]⟩
  · intro h
    simp [timeSpent, h]
  · intro h
    simp only [timeSpent, if_neg h]
    show PyVal.str (pdTimedeltaStr
      (halfEvenDiv (((rows.map toRowD).map Row.value).sum) weeks)) = _
    rw [List.map_map]
    rfl

/-- Witness for C7 at the §8 scenario table with 48 weeks. -/
theorem c7_duration_rendering_witness :
    (48 : Int) ≠ 0 ∧
    (timeSpent rowsEx (2019, 9) 48).weekly_average =
      PyVal.str (pdTimedeltaStr (halfEvenDiv ((rowsEx.map MRow.duration).sum) 48)) :=
  ⟨by decide, (c7_duration_rendering rowsEx (2019, 9) 48).2.2.2.2.2.1 (by decide)⟩

end GCal

namespace GCal

/-- Claim C8: on one calculator instance, every report method returns the same
result no matter how many other report calls — in any order and interleaving —
came before: the derived tables are memoized and never drift. -/
theorem c8_report_methods_idempotent (events : List Ev) (atts : List RawAttendee)
    (tz : Int) (clock : Nat → Instant) (p1 p2 : List Method) (m : Method) :
    (step m (runCalls (mkCalc events atts tz clock) p1)).1 =
    (step m (runCalls (mkCalc events atts tz clock) p2)).1 := by
  rw [(step_spec (run_inv _ (inv_mkCalc events atts tz clock) p1) m).1,
    (step_spec (run_inv _ (inv_mkCalc events atts tz clock) p2) m).1]

/-- Claim C9: the collaborator count table, and hence the `top_attendees`
report, never contains the reporting user's own email (the email of the
provider records marked `self`). -/
theorem c9_own_email_excluded (records : List ARecord) (elig : StoredAttendee → Bool)
    (u : String) (h : ∀ r ∈ records, r.email = u → r.self = true) :
    (∀ c ∈ attendeesCounts elig (create_attendees records), c.1 ≠ u) ∧
    (∀ e ∈ attendeeReport (attendeesCounts elig (create_attendees records)),
      e.name ≠ u) := by
  have hmain : ∀ c ∈ attendeesCounts elig (create_attendees records), c.1 ≠ u := by
    intro c hc hcu
    have hc2 : c ∈ seriesCounts (((create_attendees records).filter
        (fun a => elig a && a.response == "accepted")).map StoredAttendee.email) :=
      (List.perm_insertionSort attGe _).mem_iff.mp hc
    obtain ⟨e, he, rfl⟩ := List.mem_map.mp hc2
    have he2 : e ∈ ((create_attendees records).filter
        (fun a => elig a && a.response == "accepted")).map StoredAttendee.email :=
      List.mem_dedup.mp he
    obtain ⟨a, ha, rfl⟩ := List.mem_map.mp he2
    obtain ⟨ha2, hfil⟩ := List.mem_filter.mp ha
    simp only [Bool.and_eq_true, beq_iff_eq] at hfil
    have hrespe : a.response = "accepted" := hfil.2
    obtain ⟨r, hr, rfl⟩ := List.mem_map.mp ha2
    obtain ⟨hrrec, hkept⟩ := List.mem_filter.mp hr
    have hself : r.self = true := h r hrrec hcu
    have hstat : r.responseStatus = "accepted" := camelToSnake_accepted hrespe
    rw [Bool.not_eq_true', Bool.and_eq_false_iff] at hkept
    rcases hkept with hk | hk
    · rw [hself] at hk
      simp at hk
    · rw [hstat] at hk
      simp at hk
  refine ⟨hmain, ?_⟩
  intro e he
  obtain ⟨p, hp, rfl⟩ := List.mem_map.mp he
  exact hmain p (mem_nlargestSeries hp)

/-- Witness for C9 at a concrete record set containing the user twice. -/
theorem c9_own_email_excluded_witness :
    (∀ r ∈ recsEx, r.email = "me@x.com" → r.self = true) ∧
    (∀ c ∈ attendeesCounts eligAll (create_attendees recsEx), c.1 ≠ "me@x.com") :=
  ⟨by decide, (c9_own_email_excluded recsEx eligAll "me@x.com" (by decide)).1⟩

/-- Claim C10 counterexample: two clock streams that agree on every
construction-time read (positions 0, 1, 2) but differ at position 3 — the read
the weeks computation performs during the first report call — produce
different `time_spent` reports, so the reports are not a function of the
construction-time "now" alone. -/
theorem c10_clock_reread_counterexample :
    clockC 0 = clockD 0 ∧ clockC 1 = clockD 1 ∧ clockC 2 = clockD 2 ∧
    (step Method.timeSpent (runCalls (mkCalc evEx [] 0 clockC) [])).1 ≠
    (step Method.timeSpent (runCalls (mkCalc evEx [] 0 clockD) [])).1 := by
  decide

/-- Claim C10 (amended): the clock is read three times at construction
(reference window start, event cutoff, attendee cutoff) and at most once more,
lazily, by the weeks computation during a report call, after which it is
memoized; reports depend on no clock reads beyond those four, so two clock
streams agreeing on positions 0..3 give identical reports for every call
sequence. -/
theorem c10_clock_reads_bounded (events : List Ev) (atts : List RawAttendee)
    (tz : Int) (cA cB : Nat → Instant) (h0 : cA 0 = cB 0) (h1 : cA 1 = cB 1)
    (h2 : cA 2 = cB 2) (h3 : cA 3 = cB 3) (p : List Method) (m : Method) :
    (step m (runCalls (mkCalc events atts tz cA) p)).1 =
    (step m (runCalls (mkCalc events atts tz cB) p)).1 := by
  rw [(step_spec (run_inv _ (inv_mkCalc events atts tz cA) p) m).1,
    (step_spec (run_inv _ (inv_mkCalc events atts tz cB) p) m).1]
  cases m <;>
    simp only [canonOut, canonDf, canonW, canonCounts, h0, h1, h2, h3]

/-- Witness for the amended C10 at two concrete streams agreeing on 0..3. -/
theorem c10_clock_reads_bounded_witness :
    clockE 0 = clockF 0 ∧ clockE 1 = clockF 1 ∧ clockE 2 = clockF 2 ∧
    clockE 3 = clockF 3 ∧
    (step Method.attendee (runCalls (mkCalc evEx [] 0 clockE) [])).1 =
    (step Method.attendee (runCalls (mkCalc evEx [] 0 clockF) [])).1 :=
  ⟨rfl, rfl, rfl, rfl,
    c10_clock_reads_bounded evEx [] 0 clockE clockF rfl rfl rfl rfl []
      Method.attendee⟩

end GCal
